import Mathlib

/-!
A verification development for the call-info query of `crates/ra_analysis/src/call_info.rs`.

The shallow embedding below translates the source into Lean:

* Syntax trees are immutable trees of kinded nodes (`SyntaxNode`), as supplied by the
  collaborator database.  Offsets are character positions (`Nat`); all inputs of interest
  are ASCII, so byte offsets and character offsets coincide.
* `FnCallNode`, `FnSignatureInfo.new`, `extract_doc_comments`, `param_list` and
  `signature_and_active_param` are translated directly from the source.
* The collaborator pieces that the source relies upon but that are not part of the
  analysed file (the `find_node_at_offset` lookup, the doc-comment accessors of the
  syntax library, the symbol index) are modelled from the specification; each such
  definition carries a doc comment saying so.
* Runtime assertions of the source (`TextRange::from_to`, the slice bound check, the
  `unwrap` on the `FnDef` cast) are modelled as an `Except.error` outcome, so a proof
  can distinguish a panic from an ordinary "no result".
-/

namespace CallInfoModel

/-- Syntax-node kind tags; the subset of `SyntaxKind` that the query inspects, plus
`other` for every kind the query never looks at. -/
inductive SyntaxKind where
  | fnDef
  | callExpr
  | methodCallExpr
  | argList
  | nameRef
  | pathExpr
  | path
  | pathSegment
  | block
  | paramList
  | selfParam
  | param
  | pat
  | comment
  | fieldExpr
  | literal
  | other
deriving DecidableEq, Repr

/-- An immutable syntax node: a token carrying its text, or an interior node with
children.  A node's text is the concatenation of its children's texts, and its range is
determined by its start position and the length of its text. -/
inductive SyntaxNode where
  | token (kind : SyntaxKind) (text : String)
  | node (kind : SyntaxKind) (children : List SyntaxNode)
deriving Repr

def SyntaxNode.kind : SyntaxNode → SyntaxKind
  | .token k _ => k
  | .node k _ => k

def SyntaxNode.childList : SyntaxNode → List SyntaxNode
  | .token _ _ => []
  | .node _ cs => cs

mutual

/-- The rendered text of a node (`syntax().text()` in the source). -/
def nodeText : SyntaxNode → String
  | .token _ t => t
  | .node _ cs => nodeTextList cs

def nodeTextList : List SyntaxNode → String
  | [] => ""
  | c :: cs => nodeText c ++ nodeTextList cs

end

/-- Length of a node's text; the node's range is `[start, start + textLen)`. -/
def textLen (n : SyntaxNode) : Nat := (nodeText n).length

/-- A node together with its absolute start offset in the file. -/
structure Positioned where
  node : SyntaxNode
  start : Nat
deriving Repr

mutual

/-- Modelled from the spec: `find_innermost_node_of_kind<K>(tree, offset)` returns the
deepest node of syntax kind `K` whose range contains `offset` (inclusive at both ends,
as a cursor sits between characters), or none if no such node exists.  This is the
collaborator behind `find_node_at_offset` in the source. -/
def findInnermostOfKind (k : SyntaxKind) (offset : Nat) (start : Nat) :
    SyntaxNode → Option Positioned
  | .token kk t =>
    if kk = k ∧ start ≤ offset ∧ offset ≤ start + t.length then
      some ⟨.token kk t, start⟩
    else none
  | .node kk cs =>
    if start ≤ offset ∧ offset ≤ start + (nodeTextList cs).length then
      match findInnermostOfKindList k offset start cs with
      | some r => some r
      | none => if kk = k then some ⟨.node kk cs, start⟩ else none
    else none

def findInnermostOfKindList (k : SyntaxKind) (offset : Nat) (start : Nat) :
    List SyntaxNode → Option Positioned
  | [] => none
  | c :: cs =>
    match findInnermostOfKind k offset start c with
    | some r => some r
    | none => findInnermostOfKindList k offset (start + textLen c) cs

end

/-- First direct child of the given kind (`child_opt` in the syntax library). -/
def findChild (k : SyntaxKind) : List SyntaxNode → Option SyntaxNode
  | [] => none
  | c :: cs => if c.kind = k then some c else findChild k cs

def childOfKind (k : SyntaxKind) (n : SyntaxNode) : Option SyntaxNode :=
  findChild k n.childList

/-- First direct child of the given kind, with its absolute start position. -/
def findChildPos (k : SyntaxKind) (start : Nat) : List SyntaxNode → Option Positioned
  | [] => none
  | c :: cs => if c.kind = k then some ⟨c, start⟩ else findChildPos k (start + textLen c) cs

def childOfKindPos (k : SyntaxKind) (p : Positioned) : Option Positioned :=
  findChildPos k p.start p.node.childList

/-- All direct children paired with their start positions (relative to `start`). -/
def childrenWithPos (start : Nat) : List SyntaxNode → List Positioned
  | [] => []
  | c :: cs => ⟨c, start⟩ :: childrenWithPos (start + textLen c) cs

/-- Which node kinds are expressions (`ast::Expr::cast` succeeds). -/
def isExprKind : SyntaxKind → Bool
  | .pathExpr => true
  | .callExpr => true
  | .methodCallExpr => true
  | .fieldExpr => true
  | .literal => true
  | _ => false

/-- `call_expr.expr()`: the first direct child that is an expression. -/
def exprChild (n : SyntaxNode) : Option SyntaxNode :=
  n.childList.find? (fun c => isExprKind c.kind)

/-- The two call-site shapes the query recognises (`enum FnCallNode` in the source). -/
inductive FnCallNode where
  | callExpr (p : Positioned)
  | methodCallExpr (p : Positioned)
deriving Repr

/-- `FnCallNode::with_node`: innermost call expression containing the offset if any,
otherwise innermost method-call expression, otherwise none. -/
def FnCallNode.with_node (tree : SyntaxNode) (offset : Nat) : Option FnCallNode :=
  match findInnermostOfKind .callExpr offset 0 tree with
  | some p => some (.callExpr p)
  | none =>
    match findInnermostOfKind .methodCallExpr offset 0 tree with
    | some p => some (.methodCallExpr p)
    | none => none

/-- `FnCallNode::name_ref`: for a direct call, the callee name is available only when
the callee expression is a path expression whose path has a name-reference segment; for
a method call, it is the first name-reference child of the call node. -/
def FnCallNode.name_ref : FnCallNode → Option SyntaxNode
  | .callExpr p =>
    match exprChild p.node with
    | some e =>
      if e.kind = .pathExpr then
        ((childOfKind .path e).bind (childOfKind .pathSegment)).bind (childOfKind .nameRef)
      else none
    | none => none
  | .methodCallExpr p => childOfKind .nameRef p.node

/-- `FnCallNode::arg_list`: the call's argument-list child, if present. -/
def FnCallNode.arg_list : FnCallNode → Option Positioned
  | .callExpr p => childOfKindPos .argList p
  | .methodCallExpr p => childOfKindPos .argList p

/-- Character-list version of `str::starts_with`. -/
def startsWithChars : List Char → List Char → Bool
  | [], _ => true
  | _ :: _, [] => false
  | p :: ps, c :: cs => p == c && startsWithChars ps cs

/-- `str::starts_with` for a string pattern. -/
def strStartsWith (s pre : String) : Bool := startsWithChars pre.toList s.toList

/-- The whitespace characters relevant here (all inputs are ASCII). -/
def isWS (c : Char) : Bool := c == ' ' || c == '\t' || c == '\n' || c == '\r'

/-- `str::trim`: remove leading and trailing whitespace. -/
def strTrim (s : String) : String :=
  String.mk (((s.toList.dropWhile isWS).reverse.dropWhile isWS).reverse)

/-- `Vec::join("\n")`. -/
def joinWithNL : List String → String
  | [] => ""
  | [l] => l
  | l :: l2 :: ls => l ++ "\n" ++ joinWithNL (l2 :: ls)

/-- Character-list version of `str::contains` for a string pattern. -/
def hasSubChars (p : List Char) : List Char → Bool
  | [] => startsWithChars p []
  | c :: cs => startsWithChars p (c :: cs) || hasSubChars p cs

/-- `str::contains`: does `s` contain `pat` as a substring? -/
def containsSub (s pat : String) : Bool := hasSubChars pat.toList s.toList

/-- Splits on a newline terminator, accumulating the current line in reverse. -/
def rustLinesAux (cur : List Char) : List Char → List (List Char)
  | [] => [cur.reverse]
  | c :: cs =>
    if c = '\n' then cur.reverse :: (if cs.isEmpty then [] else rustLinesAux [] cs)
    else rustLinesAux (c :: cur) cs

/-- A trailing carriage return is not part of a line. -/
def stripCR (l : List Char) : List Char :=
  if l.getLast? = some '\r' then l.dropLast else l

/-- Modelled from the Rust standard library: `str::lines` splits at line endings, which
are not part of the returned lines, and a final line ending does not produce an extra
empty line. -/
def rustLines (s : String) : List String :=
  if s = "" then []
  else (rustLinesAux [] s.toList).map (fun l => String.mk (stripCR l))

/-- The markdown-massaging loop of `FnSignatureInfo::new` (one step per doc line): a
line starting with the triple-backtick fence toggles the in-code-block state, and a
fence line that just opened a block and does not contain "rust" is replaced by a
"rust"-tagged fence. -/
def processDocLines (inCodeBlock : Bool) : List String → List String
  | [] => []
  | line :: rest =>
    let st := if strStartsWith line "```" then !inCodeBlock else inCodeBlock
    let outLine :=
      if st && strStartsWith line "```" && !(containsSub line "rust") then "```rust" else line
    outLine :: processDocLines st rest

/-- Lines 164-183 of the source: massage the doc text line by line, then produce the
joined doc string only when the processed line list is nonempty. -/
def massageDoc (docs : String) : Option String :=
  let processed := processDocLines false (rustLines docs)
  if processed.isEmpty then none else some (joinWithNL processed)

/-- Modelled from the spec: the doc-comment nodes attached to a definition are its
comment children whose text uses the doc-comment marker. -/
def isDocCommentNode (n : SyntaxNode) : Bool :=
  if n.kind = .comment then strStartsWith (nodeText n) "///" else false

/-- The definition's doc-comment children with their positions relative to the
definition node's own start. -/
def docCommentsPos (n : SyntaxNode) : List Positioned :=
  (childrenWithPos 0 n.childList).filter (fun p => isDocCommentNode p.node)

/-- The fold computing the smallest doc-comment start (source folds `min` from
`usize::MAX`; starting from the head's own start is the same value). -/
def spanStart (ps : List Positioned) : Nat :=
  match ps with
  | [] => 0
  | d :: _ => ps.foldl (fun a p => min a p.start) d.start

/-- The fold computing the largest doc-comment end (source folds `max` from
`usize::MIN`). -/
def spanEnd (ps : List Positioned) : Nat :=
  ps.foldl (fun a p => max a (p.start + textLen p.node)) 0

/-- `FnSignatureInfo::extract_doc_comments`: none when the definition has no
doc comments; otherwise the minimal range spanning all of them together with the
collaborator-provided doc text (`doc_comment_text`), passed in as `docText`.  Positions
are relative to the definition node, so the `checked_sub` of the node start in the
source is the subtraction of zero here and cannot underflow. -/
def extract_doc_comments (docText : String) (n : SyntaxNode) : Option ((Nat × Nat) × String) :=
  match docCommentsPos n with
  | [] => none
  | d :: ds => some ((spanStart (d :: ds), spanEnd (d :: ds)), docText)

/-- The label before doc-comment excision: if the definition has a body, the
concatenation of the direct children whose range is not a sub-range of the body's
range; otherwise the full text of the definition node. -/
def labelRaw (n : SyntaxNode) : String :=
  match childOfKindPos .block ⟨n, 0⟩ with
  | some body =>
    let bStart := body.start
    let bEnd := body.start + textLen body.node
    ((childrenWithPos 0 n.childList).filter
        (fun c => if bStart ≤ c.start ∧ c.start + textLen c.node ≤ bEnd then false else true)).foldl
      (fun acc c => acc ++ nodeText c.node) ""
  | none => nodeText n

/-- `String::replace_range(b..e, "")` on character positions. -/
def strRemoveRange (s : String) (b e : Nat) : String :=
  String.mk (s.toList.take b ++ s.toList.drop e)

/-- `FnSignatureInfo::param_list`: the rendered self parameter first when present, then
the pattern text of every ordinary parameter that has one. -/
def param_list (n : SyntaxNode) : List String :=
  match childOfKind .paramList n with
  | none => []
  | some pl =>
    let selfPart :=
      match childOfKind .selfParam pl with
      | some sp => [nodeText sp]
      | none => []
    selfPart ++
      (pl.childList.filter (fun c => decide (c.kind = .param))).filterMap
        (fun p => (childOfKind .pat p).map nodeText)

/-- The signature descriptor built by `FnSignatureInfo::new`. -/
structure FnSignatureInfo where
  label : String
  params : List String
  doc : Option String
deriving DecidableEq, Repr

/-- `FnSignatureInfo::new`: strip the body for the label; when doc comments exist,
excise their span from the label and massage the collaborator-provided doc text
(`docText`); finally trim the label. -/
def FnSignatureInfo.new (docText : String) (n : SyntaxNode) : Option FnSignatureInfo :=
  let label := labelRaw n
  match extract_doc_comments docText n with
  | some ((b, e), docs) =>
    let label := strRemoveRange label b e
    some { label := strTrim label, params := param_list n, doc := massageDoc docs }
  | none => some { label := strTrim label, params := param_list n, doc := none }

/-- `fn_def.param_list().and_then(|l| l.self_param()).is_some()`. -/
def hasSelfParam (n : SyntaxNode) : Bool :=
  ((childOfKind .paramList n).bind (childOfKind .selfParam)).isSome

/-- Lines 45-79 of the source: the active-parameter computation.  The two runtime
assertions on the text range are modelled as `Except.error`:
`TextRange::from_to(start, offset)` asserts `start ≤ offset`, and
`SyntaxText::slice` asserts that the range stays inside the argument-list node. -/
def computeActiveParam (numParams : Nat) (hasSelf : Bool) (argList : Option Positioned)
    (offset : Nat) : Except Unit (Option Nat) :=
  if numParams = 1 then
    if hasSelf then .ok none else .ok (some 0)
  else if 1 < numParams then
    match argList with
    | some al =>
      if offset < al.start then .error ()
      else if al.start + textLen al.node < offset then .error ()
      else
        let sliced := (nodeText al.node).toList.take (offset - al.start)
        let commas := sliced.count ','
        .ok (some (if hasSelf then commas + 1 else commas))
    | none => .ok none
  else .ok none

/-- A candidate produced by the collaborator symbol index, already resolved to its node
in the owning file's snapshot; the stored pointer kind is the kind of that node. -/
structure Symbol where
  node : SyntaxNode
deriving Repr

/-- `ast::FnDef::cast`: succeeds exactly on nodes of kind `FN_DEF`. -/
def castFnDef (n : SyntaxNode) : Option SyntaxNode :=
  if n.kind = .fnDef then some n else none

/-- The candidate loop of `signature_and_active_param` (lines 38-84): take the first
candidate whose kind is `FN_DEF`, cast it (the `unwrap` on a failed cast is modelled as
an error), build the descriptor and compute the active parameter. -/
def resolveLoop (docTextOf : SyntaxNode → String) (callingNode : FnCallNode) (offset : Nat) :
    List Symbol → Except Unit (Option (FnSignatureInfo × Option Nat))
  | [] => .ok none
  | s :: rest =>
    if s.node.kind = .fnDef then
      match castFnDef s.node with
      | none => .error ()
      | some fnDef =>
        match FnSignatureInfo.new (docTextOf fnDef) fnDef with
        | some descriptor =>
          let numParams := descriptor.params.length
          let hasSelf := hasSelfParam fnDef
          match computeActiveParam numParams hasSelf callingNode.arg_list offset with
          | .error u => .error u
          | .ok cur => .ok (some (descriptor, cur))
        | none => resolveLoop docTextOf callingNode offset rest
    else resolveLoop docTextOf callingNode offset rest

/-- `signature_and_active_param`: classify the call site, extract the callee name,
resolve it through the collaborator index (the candidate list `symbols`), and build the
descriptor and active parameter.  `docTextOf` is the collaborator's `doc_comment_text`
for each definition node. -/
def signature_and_active_param (docTextOf : SyntaxNode → String) (tree : SyntaxNode)
    (symbols : List Symbol) (offset : Nat) :
    Except Unit (Option (FnSignatureInfo × Option Nat)) :=
  match FnCallNode.with_node tree offset with
  | none => .ok none
  | some callingNode =>
    match callingNode.name_ref with
    | none => .ok none
    | some _ => resolveLoop docTextOf callingNode offset symbols

/-- The result shape returned to the editor layer. -/
structure CallInfo where
  label : String
  doc : Option String
  parameters : List String
  active_parameter : Option Nat
deriving DecidableEq, Repr

/-- `call_info` (lines 13-22): repackage the descriptor and active parameter. -/
def call_info (docTextOf : SyntaxNode → String) (tree : SyntaxNode) (symbols : List Symbol)
    (offset : Nat) : Except Unit (Option CallInfo) :=
  match signature_and_active_param docTextOf tree symbols offset with
  | .error u => .error u
  | .ok none => .ok none
  | .ok (some (sig, ap)) =>
    .ok (some { label := sig.label, doc := sig.doc, parameters := sig.params,
                active_parameter := ap })

/-! Concrete syntax trees used by witnesses and counterexamples.  `fnDefFoo` embeds
`fn foo(x: u32, y: u32) -> u32 {x + y}` from the source's own test corpus. -/

def fooParamX : SyntaxNode := .node .param [.token .pat "x", .token .other ": u32"]

def fooParamY : SyntaxNode := .node .param [.token .pat "y", .token .other ": u32"]

def fooParams : SyntaxNode :=
  .node .paramList [.token .other "(", fooParamX, .token .other ", ", fooParamY,
    .token .other ")"]

def fnDefFoo : SyntaxNode :=
  .node .fnDef [.token .other "fn foo", fooParams, .token .other " -> u32 ",
    .token .block "{x + y}"]

def fooCallee : SyntaxNode :=
  .node .pathExpr [.node .path [.node .pathSegment [.token .nameRef "foo"]]]

/-- The call `foo(3, )` with the whole file being
`fn foo(x: u32, y: u32) -> u32 {x + y}\nfn bar() { foo(3, ); }`; the argument list
starts at offset 52. -/
def c3Call : SyntaxNode := .node .callExpr [fooCallee, .token .argList "(3, )"]

def c3Tree : SyntaxNode :=
  .node .other [fnDefFoo, .token .other "\nfn bar() \x7b ", c3Call, .token .other "; \x7d"]

def fooSymbols : List Symbol := [{ node := fnDefFoo }]

/-- The call `foo(1,2,3,4)` in `fn foo(x: u32, y: u32) -> u32 {x + y}\nfn bar() { foo(1,2,3,4); }`;
the argument list spans offsets 52-61. -/
def c10Call : SyntaxNode := .node .callExpr [fooCallee, .token .argList "(1,2,3,4)"]

def c10Tree : SyntaxNode :=
  .node .other [fnDefFoo, .token .other "\nfn bar() \x7b ", c10Call, .token .other "; \x7d"]

/-- The argument-list spec of the fence-rewriting pass, written from the claim's words:
a fence line seen outside a code block opens one and, when it does not already contain
the language name, is rewritten to the tagged fence; a fence line seen inside a code
block closes it and passes through unchanged; every other line passes through
unchanged. -/
def fenceRewriteSpec : Bool → List String → List String
  | _, [] => []
  | inBlock, l :: ls =>
    if strStartsWith l "```" then
      if inBlock then l :: fenceRewriteSpec false ls
      else (if containsSub l "rust" then l else "```rust") :: fenceRewriteSpec true ls
    else l :: fenceRewriteSpec inBlock ls

/-- Every fence-opening line (one toggling the state from outside to inside a code
block) already contains the tagged fence. -/
def allOpenFencesTagged : Bool → List String → Bool
  | _, [] => true
  | st, l :: ls =>
    (if strStartsWith l "```" && !st then containsSub l "```rust" else true)
      && allOpenFencesTagged (if strStartsWith l "```" then !st else st) ls

/-- The argument list of `foo(3, )` when it starts at offset 10. -/
def c1ArgList : Positioned := ⟨.token .argList "(3, )", 10⟩

/-- The expected result for the clamping counter-instance. -/
def c10Result : CallInfo :=
  { label := "fn foo(x: u32, y: u32) -> u32", doc := none, parameters := ["x", "y"],
    active_parameter := some 3 }




/-- A definition with one doc comment: `/// d` followed by `fn g()` with body `{}`. -/
def c5Node : SyntaxNode :=
  .node .fnDef [.token .comment "/// d", .token .other "\nfn g()", .token .block "{}"]

def c5Doc : Positioned := ⟨.token .comment "/// d", 0⟩



/-- A definition with a bare `///` doc comment, whose collaborator doc text is
whitespace-only. -/
def c6Node : SyntaxNode :=
  .node .fnDef [.token .comment "///", .token .other "\nfn f()", .token .block "{}"]



/-! ## Helper lemmas -/

theorem startsWithChars_append_hasSub (a b : List Char) :
    ∀ l : List Char, startsWithChars (a ++ b) l = true → hasSubChars b l = true := by
  induction a with
  | nil =>
    intro l h
    rw [List.nil_append] at h
    cases l with
    | nil => simpa [hasSubChars] using h
    | cons c cs => simp [hasSubChars, h]
  | cons x a ih =>
    intro l h
    cases l with
    | nil => simp [startsWithChars] at h
    | cons c cs =>
      simp only [List.cons_append, startsWithChars, Bool.and_eq_true] at h
      have := ih cs h.2
      simp [hasSubChars, this]

theorem hasSubChars_append (a b : List Char) :
    ∀ l : List Char, hasSubChars (a ++ b) l = true → hasSubChars b l = true := by
  intro l
  induction l with
  | nil =>
    intro h
    exact startsWithChars_append_hasSub a b [] (by simpa [hasSubChars] using h)
  | cons c cs ih =>
    intro h
    rw [hasSubChars, Bool.or_eq_true] at h
    rcases h with h | h
    · exact startsWithChars_append_hasSub a b _ h
    · have := ih h
      simp [hasSubChars, this]

theorem containsSub_rust_of_tagged (l : String) (h : containsSub l "```rust" = true) :
    containsSub l "rust" = true := by
  rw [containsSub] at h ⊢
  have hd : ("```rust" : String).toList = ("```" : String).toList ++ ("rust" : String).toList :=
    rfl
  rw [hd] at h
  exact hasSubChars_append _ _ _ h

theorem tagged_fences_fixed_lines (ls : List String) :
    ∀ st : Bool, allOpenFencesTagged st ls = true → processDocLines st ls = ls := by
  induction ls with
  | nil => intro st _; rfl
  | cons l ls ih =>
    intro st h
    rw [allOpenFencesTagged, Bool.and_eq_true] at h
    obtain ⟨h1, h2⟩ := h
    cases hf : strStartsWith l "```" with
    | false =>
      rw [hf] at h2
      have h2x : allOpenFencesTagged st ls = true := by simpa using h2
      simp [processDocLines, hf, ih _ h2x]
    | true =>
      rw [hf] at h1 h2
      cases st with
      | false =>
        have h1x : containsSub l "```rust" = true := by simpa using h1
        have h2x : allOpenFencesTagged true ls = true := by simpa using h2
        have hr := containsSub_rust_of_tagged l h1x
        simp [processDocLines, hf, hr, ih _ h2x]
      | true =>
        have h2x : allOpenFencesTagged false ls = true := by simpa using h2
        simp [processDocLines, hf, ih _ h2x]

theorem processDocLines_eq_nil_iff (st : Bool) (ls : List String) :
    processDocLines st ls = [] ↔ ls = [] := by
  cases ls <;> simp [processDocLines]

theorem rustLinesAux_ne_nil (cs : List Char) : ∀ cur : List Char, rustLinesAux cur cs ≠ [] := by
  induction cs with
  | nil => intro cur; simp [rustLinesAux]
  | cons c cs ih =>
    intro cur
    rw [rustLinesAux]
    by_cases h : c = '\n'
    · simp [h]
    · simpa [h] using ih (c :: cur)

theorem rustLines_eq_nil_iff (s : String) : rustLines s = [] ↔ s = "" := by
  constructor
  · intro h
    by_contra hs
    rw [rustLines, if_neg hs, List.map_eq_nil_iff] at h
    exact rustLinesAux_ne_nil s.toList [] h
  · intro h
    subst h
    rfl

theorem massageDoc_eq_none_iff (docs : String) : massageDoc docs = none ↔ docs = "" := by
  constructor
  · intro h
    rw [massageDoc] at h
    by_cases hp : processDocLines false (rustLines docs) = []
    · have := (processDocLines_eq_nil_iff _ _).mp hp
      exact (rustLines_eq_nil_iff docs).mp this
    · rw [if_neg (by simpa [List.isEmpty_iff] using hp)] at h
      exact absurd h (by simp)
  · intro h
    subst h
    rfl

theorem foldl_min_start_le_init (l : List Positioned) :
    ∀ init : Nat, l.foldl (fun a p => min a p.start) init ≤ init := by
  induction l with
  | nil => intro init; simp
  | cons d l ih =>
    intro init
    rw [List.foldl_cons]
    exact le_trans (ih _) (min_le_left _ _)

theorem foldl_min_start_le (l : List Positioned) :
    ∀ init : Nat, ∀ p ∈ l, l.foldl (fun a q => min a q.start) init ≤ p.start := by
  induction l with
  | nil => intro init p hp; cases hp
  | cons d l ih =>
    intro init p hp
    rw [List.foldl_cons]
    rcases List.mem_cons.mp hp with h | h
    · subst h
      exact le_trans (foldl_min_start_le_init _ _) (min_le_right _ _)
    · exact ih _ p h

theorem le_foldl_max_end_init (l : List Positioned) :
    ∀ init : Nat, init ≤ l.foldl (fun a p => max a (p.start + textLen p.node)) init := by
  induction l with
  | nil => intro init; simp
  | cons d l ih =>
    intro init
    rw [List.foldl_cons]
    exact le_trans (le_max_left _ _) (ih _)

theorem le_foldl_max_end (l : List Positioned) :
    ∀ init : Nat, ∀ p ∈ l,
      p.start + textLen p.node ≤ l.foldl (fun a q => max a (q.start + textLen q.node)) init := by
  induction l with
  | nil => intro init p hp; cases hp
  | cons d l ih =>
    intro init p hp
    rw [List.foldl_cons]
    rcases List.mem_cons.mp hp with h | h
    · subst h
      exact le_trans (le_max_right _ _) (le_foldl_max_end_init _ _)
    · exact ih _ p h

/-! ## Claim theorems -/

/-- Claim C1: when the rendered parameter count exceeds 1 and an argument-list node is
present, with the query offset inside the argument list's range (so the text-range
construction succeeds), the returned active parameter equals the number of comma
characters in the argument-list text between the list's start and the query offset,
plus 1 when the function has a receiver parameter. -/
theorem active_param_is_comma_count (numParams : Nat) (hasSelf : Bool) (al : Positioned)
    (offset : Nat) (h1 : 1 < numParams) (h2 : al.start ≤ offset)
    (h3 : offset ≤ al.start + textLen al.node) :
    computeActiveParam numParams hasSelf (some al) offset =
      .ok (some (((nodeText al.node).toList.take (offset - al.start)).count ','
        + (if hasSelf then 1 else 0))) := by
  have hne : ¬ numParams = 1 := by omega
  have hlt : ¬ offset < al.start := by omega
  have hgt : ¬ al.start + textLen al.node < offset := by omega
  cases hasSelf <;> simp [computeActiveParam, hne, h1, hlt, hgt]

/-- Witness for C1: `foo(3, )` with the cursor right after the opening parenthesis
(zero commas before the cursor, no receiver) gives index 0. -/
theorem active_param_is_comma_count_witness :
    (1 < 2 ∧ c1ArgList.start ≤ 11 ∧ 11 ≤ c1ArgList.start + textLen c1ArgList.node)
    ∧ computeActiveParam 2 false (some c1ArgList) 11 =
      .ok (some (((nodeText c1ArgList.node).toList.take (11 - c1ArgList.start)).count ','
        + (if false then 1 else 0))) :=
  ⟨⟨by decide, by decide, by decide⟩,
    active_param_is_comma_count 2 false c1ArgList 11 (by decide) (by decide) (by decide)⟩

/-- Claim C2: a produced result has no active parameter exactly when the rendered
parameter count is 0, or is exactly 1 with a receiver, or exceeds 1 with no
argument-list node; and a rendered count of exactly 1 without a receiver always gives
index 0, whatever the argument list holds. -/
theorem active_param_none_cases (numParams : Nat) (hasSelf : Bool)
    (argList : Option Positioned) (offset : Nat) (v : Option Nat)
    (h : computeActiveParam numParams hasSelf argList offset = .ok v) :
    (v = none ↔ (numParams = 0 ∨ (numParams = 1 ∧ hasSelf = true)
      ∨ (1 < numParams ∧ argList = none)))
    ∧ (numParams = 1 → hasSelf = false → v = some 0) := by
  by_cases h1 : numParams = 1
  · subst h1
    cases hasSelf
    · simp [computeActiveParam] at h
      subst h
      refine ⟨by simp, fun _ _ => rfl⟩
    · simp [computeActiveParam] at h
      subst h
      refine ⟨by simp, fun _ hx => by cases hx⟩
  · by_cases h2 : 1 < numParams
    · cases argList with
      | none =>
        simp [computeActiveParam, h1, h2] at h
        subst h
        exact ⟨⟨fun _ => Or.inr (Or.inr ⟨h2, rfl⟩), fun _ => rfl⟩, fun hx => absurd hx h1⟩
      | some al =>
        simp only [computeActiveParam, if_neg h1, if_pos h2] at h
        by_cases e1 : offset < al.start
        · rw [if_pos e1] at h
          cases h
        · rw [if_neg e1] at h
          by_cases e2 : al.start + textLen al.node < offset
          · rw [if_pos e2] at h
            cases h
          · rw [if_neg e2] at h
            have hv : v = some (if hasSelf
                then ((nodeText al.node).toList.take (offset - al.start)).count ',' + 1
                else ((nodeText al.node).toList.take (offset - al.start)).count ',') := by
              cases h
              rfl
            subst hv
            refine ⟨?_, fun hx => absurd hx h1⟩
            constructor
            · intro hx
              cases hasSelf <;> simp at hx
            · rintro (hx | ⟨hx, _⟩ | ⟨_, hx⟩)
              · omega
              · exact absurd hx h1
              · cases hx
    · have h0 : numParams = 0 := by omega
      subst h0
      simp [computeActiveParam] at h
      subst h
      refine ⟨by simp, fun hx => by cases hx⟩

/-- Witness for C2: a zero-parameter signature produces a result with no active
parameter. -/
theorem active_param_none_cases_witness :
    ((none : Option Nat) = none ↔ (0 = 0 ∨ (0 = 1 ∧ false = true)
      ∨ (1 < 0 ∧ (none : Option Positioned) = none)))
    ∧ (0 = 1 → false = false → (none : Option Nat) = some 0) :=
  active_param_none_cases 0 false none 7 none rfl

/-- Claim C3 is refuted by this evaluation: with the cursor inside the callee name of
`foo(3, )` (offset 50, before the argument list, which starts at offset 52) and `foo`
resolving to a two-parameter function, the query trips the `TextRange::from_to`
assertion (`start <= end`) and panics instead of returning a result, no result or a
cancellation. -/
theorem cursor_in_callee_panics :
    signature_and_active_param (fun _ => "") c3Tree fooSymbols 50 = .error () := rfl

/-- Claim C4: with no doc comments the returned doc is none and the returned label is
the definition text with only the body removed (the concatenation of the direct
children whose range is not a sub-range of the body's range), or the unchanged full
text when there is no body, trimmed. -/
theorem no_doc_label_roundtrip (docText : String) (n : SyntaxNode)
    (h : docCommentsPos n = []) :
    FnSignatureInfo.new docText n =
      some { label := strTrim (labelRaw n), params := param_list n, doc := none }
    ∧ (childOfKindPos .block ⟨n, 0⟩ = none → labelRaw n = nodeText n) := by
  constructor
  · simp [FnSignatureInfo.new, extract_doc_comments, h]
  · intro hb
    simp [labelRaw, hb]

/-- Witness for C4 on `fn foo(x: u32, y: u32) -> u32 {x + y}`. -/
theorem no_doc_label_roundtrip_witness :
    (FnSignatureInfo.new "" fnDefFoo =
      some { label := "fn foo(x: u32, y: u32) -> u32", params := ["x", "y"], doc := none })
    ∧ (childOfKindPos .block ⟨fnDefFoo, 0⟩ = none → labelRaw fnDefFoo = nodeText fnDefFoo) :=
  no_doc_label_roundtrip "" fnDefFoo rfl

/-- Claim C5: with doc comments present, the label is the raw label with exactly the
minimal span covering all doc comments excised (offsets relative to the definition
node's own start) and then trimmed, the rest of the label text being left intact; the
span does cover every doc comment. -/
theorem doc_excision_label (docText : String) (n : SyntaxNode) (d : Positioned)
    (ds : List Positioned) (h : docCommentsPos n = d :: ds) :
    FnSignatureInfo.new docText n =
      some { label := strTrim (strRemoveRange (labelRaw n) (spanStart (d :: ds))
               (spanEnd (d :: ds))),
             params := param_list n, doc := massageDoc docText }
    ∧ ∀ p ∈ d :: ds,
        spanStart (d :: ds) ≤ p.start ∧ p.start + textLen p.node ≤ spanEnd (d :: ds) := by
  constructor
  · simp [FnSignatureInfo.new, extract_doc_comments, h]
  · intro p hp
    exact ⟨foldl_min_start_le (d :: ds) d.start p hp, le_foldl_max_end (d :: ds) 0 p hp⟩

/-- Witness for C5 on a definition carrying the doc comment `/// d`. -/
theorem doc_excision_label_witness :
    (FnSignatureInfo.new "d" c5Node =
      some { label := "fn g()", params := [], doc := some "d" })
    ∧ ∀ p ∈ c5Doc :: ([] : List Positioned),
        spanStart (c5Doc :: []) ≤ p.start ∧ p.start + textLen p.node ≤ spanEnd (c5Doc :: []) :=
  doc_excision_label "d" c5Node c5Doc [] rfl

/-- Claim C6 is refuted by this evaluation: for a definition with a bare `///` doc
comment and whitespace-only collaborator doc text, the normalized doc text trims to
empty yet the returned doc is `some " "`, because the source only tests that the
processed line list is nonempty and never trims. -/
theorem whitespace_doc_not_none :
    FnSignatureInfo.new " " c6Node =
      some { label := "fn f()", params := [], doc := some " " }
    ∧ strTrim " " = "" ∧ some " " ≠ (none : Option String) :=
  ⟨rfl, rfl, by simp⟩

/-- Claim C6 amended: the returned doc is none exactly when the definition has no doc
comments or the collaborator doc text is empty (has no lines); a nonempty whitespace-only
doc text is returned as is. -/
theorem doc_none_iff (docText : String) (n : SyntaxNode) (i : FnSignatureInfo)
    (h : FnSignatureInfo.new docText n = some i) :
    i.doc = none ↔ (docCommentsPos n = [] ∨ docText = "") := by
  rw [FnSignatureInfo.new, extract_doc_comments] at h
  cases hd : docCommentsPos n with
  | nil =>
    rw [hd] at h
    cases h
    simp
  | cons d ds =>
    rw [hd] at h
    cases h
    simp only [spanStart, spanEnd]
    constructor
    · intro hx
      exact Or.inr ((massageDoc_eq_none_iff docText).mp hx)
    · rintro (hx | hx)
      · cases hx
      · exact (massageDoc_eq_none_iff docText).mpr hx

/-- Witness for the amended C6: a definition with no doc comments and nonempty doc
text has no doc. -/
theorem doc_none_iff_witness :
    (({ label := "fn foo(x: u32, y: u32) -> u32", params := ["x", "y"], doc := none } :
        FnSignatureInfo).doc = none ↔ (docCommentsPos fnDefFoo = [] ∨ ("x" : String) = "")) :=
  doc_none_iff "x" fnDefFoo
    { label := "fn foo(x: u32, y: u32) -> u32", params := ["x", "y"], doc := none } rfl

/-- Claim C7: the line-by-line fence-rewriting pass leaves a doc text unchanged when
every fence-opening line already contains the tagged fence; in particular it neither
duplicates nor alters an existing tag. -/
theorem doc_massage_idempotent (docs : String)
    (h : allOpenFencesTagged false (rustLines docs) = true) :
    processDocLines false (rustLines docs) = rustLines docs :=
  tagged_fences_fixed_lines (rustLines docs) false h

/-- Witness for C7 on an already-normalized doc text. -/
theorem doc_massage_idempotent_witness :
    allOpenFencesTagged false (rustLines "```rust\nlet x = 1;\n```") = true
    ∧ processDocLines false (rustLines "```rust\nlet x = 1;\n```")
        = rustLines "```rust\nlet x = 1;\n```" :=
  ⟨by decide, doc_massage_idempotent "```rust\nlet x = 1;\n```" (by decide)⟩

/-- Claim C8: the markdown pass toggles the in-code-block state at every line starting
with the triple-backtick fence, rewrites untagged fence-opening lines to the tagged
fence, and passes fence-closing and non-fence lines through unchanged. -/
theorem fence_rewrite_correct (st : Bool) (ls : List String) :
    processDocLines st ls = fenceRewriteSpec st ls := by
  induction ls generalizing st with
  | nil => rfl
  | cons l ls ih =>
    by_cases hf : strStartsWith l "```" = true
    · cases st <;> by_cases hr : containsSub l "rust" = true <;>
        simp [processDocLines, fenceRewriteSpec, hf, hr, ih]
    · have hf2 : strStartsWith l "```" = false := by
        cases hx : strStartsWith l "```" with
        | false => rfl
        | true => exact absurd hx hf
      simp [processDocLines, fenceRewriteSpec, hf2, ih]

/-- Claim C9: the classifier prefers the innermost call expression containing the
offset, falls back to the innermost method-call expression, and yields no result when
neither exists; for a direct call a callee name reference exists only when the callee
expression is a path expression whose path yields a name-reference segment, and any
other callee shape ends the query with no result. -/
theorem call_site_classification (tree : SyntaxNode) (offset : Nat) :
    (∀ p, findInnermostOfKind .callExpr offset 0 tree = some p →
      FnCallNode.with_node tree offset = some (.callExpr p))
    ∧ (findInnermostOfKind .callExpr offset 0 tree = none →
        ∀ p, findInnermostOfKind .methodCallExpr offset 0 tree = some p →
          FnCallNode.with_node tree offset = some (.methodCallExpr p))
    ∧ (findInnermostOfKind .callExpr offset 0 tree = none →
        findInnermostOfKind .methodCallExpr offset 0 tree = none →
          FnCallNode.with_node tree offset = none
          ∧ ∀ (docTextOf : SyntaxNode → String) (symbols : List Symbol),
              signature_and_active_param docTextOf tree symbols offset = .ok none)
    ∧ (∀ p r, FnCallNode.name_ref (.callExpr p) = some r →
        ∃ e, exprChild p.node = some e ∧ e.kind = .pathExpr ∧
          ((childOfKind .path e).bind (childOfKind .pathSegment)).bind (childOfKind .nameRef)
            = some r)
    ∧ (∀ p, FnCallNode.with_node tree offset = some (.callExpr p) →
        FnCallNode.name_ref (.callExpr p) = none →
          ∀ (docTextOf : SyntaxNode → String) (symbols : List Symbol),
            signature_and_active_param docTextOf tree symbols offset = .ok none) := by
  refine ⟨?_, ?_, ?_, ?_, ?_⟩
  · intro p hp
    simp [FnCallNode.with_node, hp]
  · intro hc p hp
    simp [FnCallNode.with_node, hc, hp]
  · intro hc hm
    have hw : FnCallNode.with_node tree offset = none := by
      simp [FnCallNode.with_node, hc, hm]
    exact ⟨hw, fun docTextOf symbols => by simp [signature_and_active_param, hw]⟩
  · intro p r hr
    cases he : exprChild p.node with
    | none =>
      simp only [FnCallNode.name_ref, he] at hr
      exact Option.noConfusion hr
    | some e =>
      simp only [FnCallNode.name_ref, he] at hr
      by_cases hk : e.kind = .pathExpr
      · rw [if_pos hk] at hr
        exact ⟨e, rfl, hk, hr⟩
      · rw [if_neg hk] at hr
        cases hr
  · intro p hw hn docTextOf symbols
    simp [signature_and_active_param, hw, hn]

/-- Witness for C9: a bare token tree holds no call or method-call node, so the query
yields no result. -/
theorem call_site_classification_witness :
    signature_and_active_param (fun _ => "") (SyntaxNode.token .other "xy") [] 1 = .ok none :=
  ((call_site_classification (SyntaxNode.token .other "xy") 1).2.2.1 rfl rfl).2 (fun _ => "") []

/-- Claim C10: in `foo(1,2,3,4)` with the cursor after the third comma, the query
returns active parameter 3 although `foo` has only two rendered parameters, so a
present active parameter need not be a valid index into the parameter list. -/
theorem active_param_not_clamped :
    call_info (fun _ => "") c10Tree fooSymbols 60 = .ok (some c10Result)
    ∧ c10Result.parameters.length ≤ 3 :=
  ⟨rfl, by decide⟩

end CallInfoModel
